import Mathlib

/-!
# Verification of the family-calendar mobile front-end

A shallow embedding, in Lean 4, of the parts of the TypeScript repository
`family-calendar-mobile` that the specification's claims are about:

* a day-granularity model of JavaScript `Date` values (epoch-day counts,
  with the civil-calendar conversion used by `getDate`/`getDay`);
* the `ApiService` HTTP client's response handling (`src/services/api.ts`);
* the view components' fetch-effect state updates (`TodayView`, `MonthView`,
  `WeekView`, `MonthView.generateCalendarDays`, `WeekView.groupEventsByDay`);
* the voice hooks (`useConversationalVoice`, `useChoresVoiceAssistant`)
  as labelled transition systems over recording/processing state;
* the `AuthProvider.login` flow and the voice-navigation dispatch
  (`processVoiceMessage`).

JavaScript platform primitives that are not code of this repository
(`Date` string parsing, the `fetch` network layer, `expo-av` recording)
are modelled as explicit parameters or oracles, as noted at each definition.
-/

namespace FamilyCalendar

/-! ## JavaScript dates, at day granularity

The claims under verification only ever inspect a `Date`'s day-of-week
(`getDay`), day-of-month (`getDate`) and whole-day offsets (`setDate`),
so a `Date` is modelled by its epoch-day count (days since 1970-01-01,
which was a Thursday).  `getDate` uses the standard proleptic-Gregorian
civil-from-days conversion, which is what the JavaScript `Date` getters
compute (timezone offsets are ignored: all claims are day-granular). -/

structure JsDate where
  epochDay : Int
deriving DecidableEq, Repr

/-- `Date.prototype.getDay`: 0 = Sunday .. 6 = Saturday.
1970-01-01 (epoch day 0) was a Thursday, hence the offset 4. -/
def jsGetDay (d : JsDate) : Nat :=
  ((d.epochDay + 4) % 7).toNat

/-- `d.setDate(d.getDate() + n)` in JavaScript shifts the date by `n`
whole days (the engine normalises month/year overflow). -/
def jsAddDays (d : JsDate) (n : Int) : JsDate :=
  ⟨d.epochDay + n⟩

/-- Civil-from-days: epoch-day count to (year, month 1..12, day 1..31),
proleptic Gregorian (Howard Hinnant's algorithm, as used by the
date libraries underlying JavaScript engines). -/
def civilFromDays (z0 : Int) : Int × Nat × Nat :=
  let z := z0 + 719468
  let era : Int := z.ediv 146097
  let doe : Nat := (z.emod 146097).toNat
  let yoe : Nat := (doe - doe / 1460 + doe / 36524 - doe / 146096) / 365
  let y : Int := (yoe : Int) + era * 400
  let doy : Nat := doe - (365 * yoe + yoe / 4 - yoe / 100)
  let mp : Nat := (5 * doy + 2) / 153
  let d : Nat := doy - (153 * mp + 2) / 5 + 1
  let m : Nat := if mp < 10 then mp + 3 else mp - 9
  (y + (if m ≤ 2 then 1 else 0), m, d)

/-- `Date.prototype.getDate`: the day-of-month, 1..31. -/
def jsGetDate (d : JsDate) : Nat :=
  (civilFromDays d.epochDay).2.2

/-! ## The calendar-event record (`CalendarEvent` in `services/api.ts`)

`start_time`/`end_time` are ISO strings in the source; the views parse
them with `new Date(...)`, which is modelled by an explicit `parse`
parameter at each use site (JavaScript date-string parsing is an engine
primitive, not code of this repository). -/

structure CalendarEvent where
  id : String
  summary : String
  description : Option String := none
  start_time : String
  end_time : String
  location : Option String := none
  attendees : Option (List String) := none
  calendar_id : Option String := none
deriving DecidableEq, Repr

/-! ## `ApiService` response handling (`src/services/api.ts`, part_007)

Each method issues one `fetch` and then handles the `Response`.  Claims
C2 and C6 are about that handling, which is the only status-dependent
logic; the parsed JSON body is abstracted as a type parameter `β`
(what `response.json()` / `JSON.parse(responseText)` yields). -/

/-- A settled HTTP response: status code plus parsed JSON body. -/
structure HttpResp (β : Type) where
  status : Nat
  body : β
deriving DecidableEq, Repr

/-- `Response.ok` in the fetch API: status in the inclusive range 200-299. -/
def respOk (status : Nat) : Bool :=
  decide (200 ≤ status ∧ status ≤ 299)

/-- The error message thrown by the status-checking methods. -/
def httpErrorMsg (status : Nat) : String :=
  "HTTP error! status: " ++ toString status

/-- The public methods of `ApiService` (class `ApiService`, part_007). -/
inductive ApiMethod where
  | processTextCommand
  | processVoiceCommand
  | getEvents
  | getTodayEvents
  | getWeekEvents
  | getMonthEvents
  | healthCheck
  | startConversation
  | sendVoiceMessage
  | sendTextMessage
  | register
  | login
  | getChores
  | assignChore
  | completeChore
  | deleteChore
  | createChore
  | choresVoiceCommand
deriving DecidableEq, Repr

/-- How each `ApiService` method handles the settled response of its one
backend `fetch`, transcribed per method from part_007 (post-parse
projections such as `data.events || []` in `getEvents` act on the parsed
body and are orthogonal to the throw-versus-return discipline):

* `processTextCommand` (l. 72-75), `getEvents` (l. 147-151, also reached
  by `getTodayEvents`/`getWeekEvents`/`getMonthEvents`), `healthCheck`
  (l. 185-188), `startConversation` (l. 199-202), `sendTextMessage`
  (l. 265-269): `if (!response.ok) throw ...; return await response.json()`;
* `processVoiceCommand` (l. 121-129), `sendVoiceMessage` (l. 230-238),
  `choresVoiceCommand` (l. 386-392): same check on `response.ok` before
  `JSON.parse(responseText)`;
* `register` (l. 279), `login` (l. 289), `getChores` (l. 299),
  `assignChore` (l. 312), `completeChore` (l. 325), `deleteChore`
  (l. 338), `createChore` (l. 351): `return await response.json()`
  with no status check at all. -/
def handleResponse {β : Type} (m : ApiMethod) (r : HttpResp β) : Except String β :=
  match m with
  | .processTextCommand
  | .processVoiceCommand
  | .getEvents
  | .getTodayEvents
  | .getWeekEvents
  | .getMonthEvents
  | .healthCheck
  | .startConversation
  | .sendVoiceMessage
  | .sendTextMessage
  | .choresVoiceCommand =>
      if respOk r.status then Except.ok r.body else Except.error (httpErrorMsg r.status)
  | .register
  | .login
  | .getChores
  | .assignChore
  | .completeChore
  | .deleteChore
  | .createChore =>
      Except.ok r.body

/-- Which methods guard on `response.ok` (read off the source, method by
method; see `handleResponse` for the line references). -/
def checksStatus : ApiMethod → Bool
  | .processTextCommand => true
  | .processVoiceCommand => true
  | .getEvents => true
  | .getTodayEvents => true
  | .getWeekEvents => true
  | .getMonthEvents => true
  | .healthCheck => true
  | .startConversation => true
  | .sendVoiceMessage => true
  | .sendTextMessage => true
  | .register => false
  | .login => false
  | .getChores => false
  | .assignChore => false
  | .completeChore => false
  | .deleteChore => false
  | .createChore => false
  | .choresVoiceCommand => true

/-! ## Request traces (claim C6)

Each `ApiService` method body is a straight-line sequence of effectful
steps.  The only `fetch` calls a method can make are listed in its
script below; `runScript` executes a script against an oracle deciding
each step's success, stopping at the first failure (an `await` that
rejects propagates out of the method — there is no retry loop anywhere
in the class). -/

inductive FetchAction where
  /-- A `fetch` against the backend (`this.baseUrl` + the endpoint). -/
  | backend (endpoint : String)
  /-- The `fetch(audioData)` that converts a base64/file-URI audio string
  into a blob (`processVoiceCommand` l. 96, `choresVoiceCommand` l. 367);
  not a backend request. -/
  | localFetch
deriving DecidableEq, Repr

/-- The `fetch` calls each method performs, in program order, transcribed
from part_007.  `audioIsString` selects the branch of the two voice
methods that first converts a string payload to a blob. -/
def methodScript (m : ApiMethod) (audioIsString : Bool) : List FetchAction :=
  match m with
  | .processTextCommand => [.backend "/api/text"]
  | .processVoiceCommand =>
      if audioIsString then [.localFetch, .backend "/api/voice"] else [.backend "/api/voice"]
  | .getEvents => [.backend "/api/events"]
  | .getTodayEvents => [.backend "/api/events"]
  | .getWeekEvents => [.backend "/api/events"]
  | .getMonthEvents => [.backend "/api/events"]
  | .healthCheck => [.backend "/health"]
  | .startConversation => [.backend "/api/conversation/start"]
  | .sendVoiceMessage => [.backend "/api/conversation/voice"]
  | .sendTextMessage => [.backend "/api/conversation/text"]
  | .register => [.backend "/api/register"]
  | .login => [.backend "/api/login"]
  | .getChores => [.backend "/api/chores"]
  | .assignChore => [.backend "/api/chores/assign"]
  | .completeChore => [.backend "/api/chores/complete"]
  | .deleteChore => [.backend "/api/chores/delete"]
  | .createChore => [.backend "/api/chores"]
  | .choresVoiceCommand =>
      if audioIsString then [.localFetch, .backend "/api/chores/voice"] else [.backend "/api/chores/voice"]

/-- Execute a script: `oracle i` decides whether step `i` succeeds.  A step
is attempted (hence listed) even if it fails, and a failed `await`
rejects the whole method call, so nothing after it runs. -/
def runScript : List FetchAction → (Nat → Bool) → Nat → List FetchAction
  | [], _, _ => []
  | a :: rest, oracle, i =>
      if oracle i then a :: runScript rest oracle (i + 1) else [a]

/-- Number of backend requests in an executed trace. -/
def countBackend (l : List FetchAction) : Nat :=
  (l.filter fun a => match a with | .backend _ => true | .localFetch => false).length

/-! ## View components' fetch effects (claims C7, C9, C10)

`TodayView` (part_005), `MonthView` (part_003/part_004) and `WeekView`
keep `events`/`loading`/`error` state and run one fetch per effect.
The promise settling is modelled as an `Except` value and the React
`mounted` cleanup flag as a `Bool`. -/

structure EventsViewState where
  events : List CalendarEvent
  loading : Bool
  error : Option String
deriving DecidableEq, Repr

/-- The `TodayView` events effect (part_005 l. 39-63): `.then` stores the
data and clears the error, `.catch` stores the inline error text,
`.finally` clears the loading flag; every update is guarded by the
`mounted` cleanup flag. -/
def todayViewApplyFetch (mounted : Bool) (res : Except Unit (List CalendarEvent))
    (s : EventsViewState) : EventsViewState :=
  match res with
  | Except.ok data =>
      let s1 := if mounted then { s with events := data, error := none } else s
      if mounted then { s1 with loading := false } else s1
  | Except.error _ =>
      let s1 := if mounted then { s with error := some "Failed to load events." } else s
      if mounted then { s1 with loading := false } else s1

/-- The `MonthView` events effect (part_003 l. 59-76, identically
part_004 l. 62-79): same then/catch/finally discipline as `TodayView`. -/
def monthViewApplyFetch (mounted : Bool) (res : Except Unit (List CalendarEvent))
    (s : EventsViewState) : EventsViewState :=
  match res with
  | Except.ok data =>
      let s1 := if mounted then { s with events := data, error := none } else s
      if mounted then { s1 with loading := false } else s1
  | Except.error _ =>
      let s1 := if mounted then { s with error := some "Failed to load events." } else s
      if mounted then { s1 with loading := false } else s1

/-! ## `extractDateFromText` (claim C3)

useConversationalVoice.ts l. 347-390: heuristic date extraction.  Text
is modelled as `List Char`; `toLowerCase` as ASCII per-character
lowering (the inputs of interest are ASCII); `String.prototype.includes`
and the two weekday regexes as substring containment — the patterns
contain no regex metacharacters: note that in the source template
literal `` `\b${wd}\b` `` the `\b` is the BACKSPACE character U+0008
(JavaScript string escape), not a regex word boundary, so `thisPattern`
is the literal backspace-delimited weekday.  The trailing
`dateRegex`/`Date.parse` branch is engine date parsing, passed in as the
`fallback` parameter (the claims' hypotheses make it unreachable). -/

/-- `needle` is a prefix of `haystack`. -/
def isPrefixB : List Char → List Char → Bool
  | [], _ => true
  | _ :: _, [] => false
  | c :: cs, d :: ds => c == d && isPrefixB cs ds

/-- `needle` occurs contiguously in `haystack` (JS `includes` /
metacharacter-free `RegExp.test`). -/
def substrB (needle : List Char) : List Char → Bool
  | [] => isPrefixB needle []
  | c :: rest => isPrefixB needle (c :: rest) || substrB needle rest

/-- `const weekdays = ['sunday',...,'saturday']` (l. 362). -/
def weekdayList : List (List Char) :=
  ["sunday".toList, "monday".toList, "tuesday".toList, "wednesday".toList,
   "thursday".toList, "friday".toList, "saturday".toList]

/-- The pattern of `new RegExp("next " + wd)` (l. 365). -/
def nextPat (i : Nat) : List Char := "next ".toList ++ weekdayList.getD i []

/-- The pattern of ``new RegExp(`\b${wd}\b`)`` (l. 366): a literal
backspace, the weekday, a literal backspace. -/
def thisPat (i : Nat) : List Char :=
  '\x08' :: weekdayList.getD i [] ++ ['\x08']

/-- `d.setDate(d.getDate() + (((7 - d.getDay() + i) % 7) + 7))`
(l. 368-371): the "next &lt;weekday&gt;" date. -/
def nextWeekdayDate (today : JsDate) (i : Nat) : JsDate :=
  jsAddDays today (((7 - (jsGetDay today : Int) + i) % 7) + 7)

/-- l. 373-377: the "this week's &lt;weekday&gt;" date
(`daysToAdd = (i - getDay + 7) % 7`, bumped to 7 when zero). -/
def thisWeekdayDate (today : JsDate) (i : Nat) : JsDate :=
  let daysToAdd : Int := ((i : Int) - (jsGetDay today : Int) + 7) % 7
  jsAddDays today (if daysToAdd = 0 then 7 else daysToAdd)

/-- The `for` loop over weekday indices (l. 363-379): at each index, the
`next` pattern is tried first, then the backspace-delimited pattern;
the first hit returns. -/
def weekdayScan (today : JsDate) (lower : List Char) : List Nat → Option JsDate
  | [] => none
  | i :: rest =>
      if substrB (nextPat i) lower then some (nextWeekdayDate today i)
      else if substrB (thisPat i) lower then some (thisWeekdayDate today i)
      else weekdayScan today lower rest

/-- `extractDateFromText` (l. 348-390).  `fallback` stands for the
trailing `dateRegex`-plus-`Date.parse` branch. -/
def extractDateFromText (today : JsDate) (fallback : Option JsDate)
    (text : List Char) : Option JsDate :=
  let lower := text.map Char.toLower
  if substrB "today".toList lower then some today
  else if substrB "tomorrow".toList lower then some (jsAddDays today 1)
  else if substrB "yesterday".toList lower then some (jsAddDays today (-1))
  else
    match weekdayScan today lower [0, 1, 2, 3, 4, 5, 6] with
    | some d => some d
    | none => fallback

/-! ## `WeekView.groupEventsByDay` (claim C9)

`WeekView.tsx` l. 46-55: a record keyed by the seven weekday names is
initialised with empty buckets and each event is pushed onto
`grouped[days[date.getDay()]]`.  The record is modelled as an
association list (key order is the initialisation order); `pushAssoc`
appends to the entry of an existing key and adds no new keys, exactly
like `grouped[dayName].push(event)` on a record initialised with all
seven keys. -/

/-- `const days = ['Sunday', ..., 'Saturday']` (WeekView.tsx l. 32). -/
def weekDays : List String :=
  ["Sunday", "Monday", "Tuesday", "Wednesday", "Thursday", "Friday", "Saturday"]

/-- `days[date.getDay()]` for an event (WeekView.tsx l. 50-51); the
default is never reached since `getDay` is below 7. -/
def dayNameOf (parse : String → JsDate) (e : CalendarEvent) : String :=
  weekDays.getD (jsGetDay (parse e.start_time)) ""

/-- `grouped[k].push(e)` on an association list holding key `k`. -/
def pushAssoc (g : List (String × List CalendarEvent)) (k : String) (e : CalendarEvent) :
    List (String × List CalendarEvent) :=
  g.map fun p => if p.1 = k then (p.1, p.2 ++ [e]) else p

/-- `groupEventsByDay` (WeekView.tsx l. 46-55). -/
def groupEventsByDay (parse : String → JsDate) (events : List CalendarEvent) :
    List (String × List CalendarEvent) :=
  let init := weekDays.map fun day => (day, ([] : List CalendarEvent))
  events.foldl (fun grouped event => pushAssoc grouped (dayNameOf parse event) event) init

/-! ## `MonthView.generateCalendarDays` (claim C10)

part_003 l. 79-99 (identically part_004 l. 92-112): seven header cells,
`firstDayOfMonth` empty cells, then one day cell per day of the month
whose events are the fetched month events filtered by
`new Date(event.start_time).getDate() === day` — a day-of-month
comparison only.  `firstDayOfMonth`/`daysInMonth`/`monthEvents` are the
component-scope values the closure reads, passed here as arguments. -/

/-- `const dayNames = ['Sun', ..., 'Sat']` (part_003 l. 81). -/
def dayNames : List String := ["Sun", "Mon", "Tue", "Wed", "Thu", "Fri", "Sat"]

/-- A cell of the month grid. -/
inductive CalendarCell where
  | header (value : String)
  | empty
  | day (value : Nat) (events : List CalendarEvent)
deriving DecidableEq, Repr

/-- `generateCalendarDays` (part_003 l. 79-99): the pushes of the three
loops, in order. -/
def generateCalendarDays (parse : String → JsDate) (firstDayOfMonth daysInMonth : Nat)
    (monthEvents : List CalendarEvent) : List CalendarCell :=
  (dayNames.map CalendarCell.header) ++
    List.replicate firstDayOfMonth CalendarCell.empty ++
    ((List.range daysInMonth).map fun k =>
      CalendarCell.day (k + 1)
        (monthEvents.filter fun e => decide (jsGetDate (parse e.start_time) = k + 1)))

/-! ## Conversation responses and voice navigation (claims C1, C5)

`useConversationalVoice.processVoiceMessage` (useConversationalVoice.ts,
l. 288-335 of the current revision) dispatches navigation from the
structured backend response and then speaks back exactly one reply.
The page indices it sets are resolved against the pager of `App.tsx`
(`pages = [Today, Week, Month]`). -/

/-- `ConversationResponse` (services/api.ts).  `queried_view` is absent
from the declared interface but read via `(result as any).queried_view`,
hence an optional field. -/
structure ConversationResponse where
  success : Bool
  conversation_id : String
  message : String
  audio_url : Option String := none
  confidence : Int := 0
  queried_date : Option (List String) := none
  queried_view : Option String := none
deriving DecidableEq, Repr

/-- The page list of the `App.tsx` pager: index 0 `TodayView`,
index 1 `WeekView`, index 2 `MonthView`. -/
def pages : List String := ["Today", "Week", "Month"]

/-- The navigation-relevant calendar context state
(`CalendarContext.tsx`), polymorphic in the date representation `δ`
produced by the engine's `new Date(string)` parser. -/
structure NavState (δ : Type) where
  currentPage : Nat
  selectedDate : δ
  monthRange : Option (δ × δ)

/-- The navigation dispatch of `processVoiceMessage`
(useConversationalVoice.ts l. 301-321): `queried_view === 'week'` selects
page 1, `'month'` selects page 2 (storing the month range when
`queried_date` has at least two entries — `setMonthRange` is always
provided by `CalendarProvider`), and otherwise a non-empty
`queried_date` selects the parsed first entry and page 0.  `parse`
stands for the engine's `new Date(string)`. -/
def processVoiceNav {δ : Type} (parse : String → δ) (result : ConversationResponse)
    (s : NavState δ) : NavState δ :=
  let requestedDate : Option δ :=
    match result.queried_date with
    | some (d :: _) => some (parse d)
    | _ => none
  if result.queried_view = some "week" then
    { s with currentPage := 1 }
  else if result.queried_view = some "month" then
    let s1 :=
      match result.queried_date with
      | some (d0 :: d1 :: _) => { s with monthRange := some (parse d0, parse d1) }
      | _ => s
    { s1 with currentPage := 2 }
  else
    match requestedDate with
    | some d => { s with selectedDate := d, currentPage := 0 }
    | none => s

/-- The one speech action at the end of `processVoiceMessage`
(useConversationalVoice.ts l. 322-331). -/
inductive SpeechAct where
  | play (audioUrl : String)
  | speak (message : String)
deriving DecidableEq, Repr

/-- `if (result.audio_url) playAudioResponse(...) else Speech.speak(result.message)`:
the JavaScript condition is string truthiness, so an absent or empty
`audio_url` falls through to speech synthesis of `message`. -/
def convSpeechAction (result : ConversationResponse) : SpeechAct :=
  match result.audio_url with
  | some u => if u = "" then SpeechAct.speak result.message else SpeechAct.play u
  | none => SpeechAct.speak result.message

/-- `CalendarResponse` (services/api.ts). -/
structure CalendarResponse where
  success : Bool
  message : String
  event_id : Option String := none
  events : Option (List CalendarEvent) := none
  error : Option String := none
deriving DecidableEq, Repr

/-- `AgentResponse` (services/api.ts), the shape handled by the legacy
`VoiceCommandView` (part_002). -/
structure AgentResponse where
  success : Bool
  message : String
  calendar_response : Option CalendarResponse := none
  confidence : Int := 0
  suggestions : Option (List String) := none
deriving DecidableEq, Repr

/-- `VoiceCommandView.processVoiceCommand` (part_002 l. 105-114) speaks
the response only when `result.success && result.message` is truthy;
there is no audio-url playback in that flow.  Returns the message
synthesized, if any. -/
def voiceCommandSpeech (result : AgentResponse) : Option String :=
  if result.success && !(result.message == "") then some result.message else none

/-! ## Authentication (claim C8)

`AuthProvider.login` (AuthScreen.tsx l. 138-152 of the second document):
on a response with `res.success && res.token` it stores the token and
email in context state and `AsyncStorage` and returns true; otherwise
(including a thrown error) it returns false without touching either. -/

/-- The parsed body of `POST /api/login`. -/
structure LoginResponse where
  success : Bool
  token : Option String := none
  error : Option String := none
deriving DecidableEq, Repr

/-- Auth context state plus the `AsyncStorage` keys `token`/`user`. -/
structure AuthState where
  token : Option String
  user : Option String
  storageToken : Option String
  storageUser : Option String
deriving DecidableEq, Repr

/-- `AuthProvider.login`.  `res` is the settled `apiService.login` call
(`Except.error` for a thrown/network error — note `login` itself never
inspects the status, it just parses the body).  The JavaScript guard
`res.success && res.token` is string truthiness: the token must be
present and non-empty. -/
def loginStep (res : Except Unit LoginResponse) (email : String) (s : AuthState) :
    Bool × AuthState :=
  match res with
  | Except.error _ => (false, s)
  | Except.ok r =>
      match r.token with
      | some t =>
          if r.success && !(t == "") then
            (true, { token := some t, user := some email,
                     storageToken := some t, storageUser := some email })
          else (false, s)
      | none => (false, s)

/-! ## The voice-capture hooks as transition systems (claim C4)

`useConversationalVoice` (useConversationalVoice.ts l. 212-286) and
`useChoresVoiceAssistant` (useChoresVoiceAssistant.ts l. 13-48) each
hold one `recordingRef`.  Besides the ref, the state tracks the *live*
platform `Recording` objects (created by `Audio.Recording.createAsync`
and not yet `stopAndUnloadAsync`-ed).  Modelled platform behaviour of
`expo-av` (not repository code): only one `Recording` can be prepared at
a time, so `createAsync` rejects while another recording is live; any
awaited step can also fail for external reasons, which the oracles
decide.  The silence-metering interval of the conversational hook only
ever invokes `stopListening`, which reachability already admits at any
time, so the timer handles need no extra state. -/

structure ConvVoiceState where
  isListening : Bool
  isProcessing : Bool
  conversationId : Option Nat
  recording : Option Nat
  live : List Nat
  nextId : Nat
deriving DecidableEq, Repr

/-- The observable sub-steps of a `stopListening` run, in order. -/
inductive RecEvent where
  | stopUnload (r : Nat)
  | clearRef
  | processAudio
deriving DecidableEq, Repr

/-- Oracle for `startListening`: which awaited step, if any, rejects. -/
structure StartEnv where
  convStartFails : Bool
  prepFails : Bool
  createFails : Bool
deriving DecidableEq, Repr

/-- Oracle for `stopListening`: whether `stopAndUnloadAsync` rejects,
and the `getURI()` result (`none` models a null URI). -/
structure StopEnv where
  stopFails : Bool
  uri : Option Nat
deriving DecidableEq, Repr

/-- The permission/audio-mode/`createAsync` tail of `startListening`
(useConversationalVoice.ts l. 221-241): on any rejection the catch
resets both flags and rethrows, leaving the ref untouched; on success
the fresh recording is stored in the ref. -/
def convStartCore (s : ConvVoiceState) (env : StartEnv) : ConvVoiceState :=
  if env.prepFails then { s with isListening := false, isProcessing := false }
  else if env.createFails || !s.live.isEmpty then
    { s with isListening := false, isProcessing := false }
  else
    { s with recording := some s.nextId, live := s.live ++ [s.nextId],
             nextId := s.nextId + 1 }

/-- `startListening` (useConversationalVoice.ts l. 212-267): sets the
flags, starts a conversation when none exists (a rejection there hits
the same catch), then records. -/
def convStartListening (s0 : ConvVoiceState) (env : StartEnv) : ConvVoiceState :=
  let s := { s0 with isListening := true, isProcessing := false }
  match s0.conversationId with
  | none =>
      if env.convStartFails then { s with isListening := false, isProcessing := false }
      else convStartCore { s with conversationId := some 0 } env
  | some _ => convStartCore s env

/-- `stopListening` (useConversationalVoice.ts l. 270-286) with the
`processVoiceMessage` tail (l. 288-335): a null ref returns at once;
otherwise the recording is stopped and unloaded, the ref cleared, and
only then is the captured audio processed (when a URI exists;
`processVoiceMessage`'s `finally` clears the processing flag).  A
rejection of `stopAndUnloadAsync` resets the processing flag and
rethrows without clearing the ref. -/
def convStopListening (s0 : ConvVoiceState) (env : StopEnv) :
    ConvVoiceState × List RecEvent :=
  match s0.recording with
  | none => (s0, [])
  | some r =>
      let s := { s0 with isListening := false, isProcessing := true }
      if env.stopFails then ({ s with isProcessing := false }, [])
      else
        let s1 := { s with recording := none, live := s.live.erase r }
        match env.uri with
        | some _ =>
            ({ s1 with isProcessing := false },
              [RecEvent.stopUnload r, RecEvent.clearRef, RecEvent.processAudio])
        | none => (s1, [RecEvent.stopUnload r, RecEvent.clearRef])

/-- `resetConversation` (l. 393). -/
def convResetConversation (s : ConvVoiceState) : ConvVoiceState :=
  { s with conversationId := none }

/-- States of the conversational hook reachable from mount by any
sequence of `startListening`/`stopListening`/`resetConversation` calls
under any oracles. -/
inductive ConvReachable : ConvVoiceState → Prop where
  | init : ConvReachable ⟨false, false, none, none, [], 0⟩
  | start (s : ConvVoiceState) (env : StartEnv) :
      ConvReachable s → ConvReachable (convStartListening s env)
  | stop (s : ConvVoiceState) (env : StopEnv) :
      ConvReachable s → ConvReachable (convStopListening s env).1
  | reset (s : ConvVoiceState) :
      ConvReachable s → ConvReachable (convResetConversation s)

structure ChoresVoiceState where
  isListening : Bool
  isProcessing : Bool
  recording : Option Nat
  live : List Nat
  nextId : Nat
deriving DecidableEq, Repr

/-- `startListening` of the chores hook (useChoresVoiceAssistant.ts
l. 13-31): same structure, no conversation step. -/
def choresStartListening (s0 : ChoresVoiceState) (env : StartEnv) : ChoresVoiceState :=
  let s := { s0 with isListening := true, isProcessing := false }
  if env.prepFails then { s with isListening := false, isProcessing := false }
  else if env.createFails || !s.live.isEmpty then
    { s with isListening := false, isProcessing := false }
  else
    { s with recording := some s.nextId, live := s.live ++ [s.nextId],
             nextId := s.nextId + 1 }

/-- `stopListening` of the chores hook (l. 33-48) with the
`processVoiceCommand` tail (l. 50-61): processing additionally requires
an auth token (`if (uri && token)`). -/
def choresStopListening (s0 : ChoresVoiceState) (token : Option String) (env : StopEnv) :
    ChoresVoiceState × List RecEvent :=
  match s0.recording with
  | none => (s0, [])
  | some r =>
      let s := { s0 with isListening := false, isProcessing := true }
      if env.stopFails then ({ s with isProcessing := false }, [])
      else
        let s1 := { s with recording := none, live := s.live.erase r }
        match env.uri, token with
        | some _, some _ =>
            ({ s1 with isProcessing := false },
              [RecEvent.stopUnload r, RecEvent.clearRef, RecEvent.processAudio])
        | _, _ => (s1, [RecEvent.stopUnload r, RecEvent.clearRef])

/-- States of the chores hook reachable from mount. -/
inductive ChoresReachable : ChoresVoiceState → Prop where
  | init : ChoresReachable ⟨false, false, none, [], 0⟩
  | start (s : ChoresVoiceState) (env : StartEnv) :
      ChoresReachable s → ChoresReachable (choresStartListening s env)
  | stop (s : ChoresVoiceState) (token : Option String) (env : StopEnv) :
      ChoresReachable s → ChoresReachable (choresStopListening s token env).1

/-- The recording-exclusivity invariant: the ref and the live set agree —
either nothing is held and nothing is live, or exactly the held
recording is live. -/
def convRecInv (s : ConvVoiceState) : Prop :=
  (s.recording = none ∧ s.live = []) ∨ ∃ r, s.recording = some r ∧ s.live = [r]

/-- Same invariant for the chores hook. -/
def choresRecInv (s : ChoresVoiceState) : Prop :=
  (s.recording = none ∧ s.live = []) ∨ ∃ r, s.recording = some r ∧ s.live = [r]

/-! # Theorems -/

theorem jsGetDay_lt_7 (d : JsDate) : jsGetDay d < 7 := by
  unfold jsGetDay
  omega

theorem countBackend_runScript_le (s : List FetchAction) (oracle : Nat → Bool) (i : Nat) :
    countBackend (runScript s oracle i) ≤ countBackend s := by
  induction s generalizing i with
  | nil => simp [runScript]
  | cons a rest ih =>
      cases ho : oracle i with
      | true =>
          simp only [runScript, ho, if_true]
          cases a <;> simp only [countBackend, List.filter] <;>
            simpa [countBackend] using ih (i + 1)
      | false =>
          simp only [runScript, ho, if_false]
          cases a <;> simp [countBackend, List.filter]

theorem runScript_oracle_true_of_not_last (s : List FetchAction) (oracle : Nat → Bool)
    (i k : Nat) (h : k + 1 < (runScript s oracle i).length) : oracle (i + k) = true := by
  induction s generalizing i k with
  | nil => simp [runScript] at h
  | cons a rest ih =>
      cases ho : oracle i with
      | true =>
          simp only [runScript, ho, if_true, List.length_cons] at h
          cases k with
          | zero => simpa using ho
          | succ k' =>
              have := ih (i + 1) k' (by omega)
              simpa [Nat.add_assoc, Nat.add_comm, Nat.add_left_comm] using this
      | false =>
          simp [runScript, ho] at h

theorem countBackend_methodScript_le_one (m : ApiMethod) (audioIsString : Bool) :
    countBackend (methodScript m audioIsString) ≤ 1 := by
  cases m <;> cases audioIsString <;> decide

/-- C2 (counterexample): the claim says every `ApiService` method throws
on a non-success HTTP status, but `getChores` (part_007 l. 293-300)
performs no status check: on a status-500 response it returns the parsed
JSON body normally instead of throwing. -/
theorem C2_counterexample :
    handleResponse ApiMethod.getChores (⟨500, 0⟩ : HttpResp Nat) = Except.ok 0 ∧
      respOk 500 = false :=
  ⟨rfl, rfl⟩

/-- C2 (amended): the event/voice/conversation/health methods throw an
error derived from the status code exactly when the response status is
non-success, and return the parsed JSON body exactly when it is
successful; the auth and chores methods (`register`, `login`,
`getChores`, `assignChore`, `completeChore`, `deleteChore`,
`createChore`) return the parsed body regardless of status and never
throw on a non-success status. -/
theorem C2_api_status_discipline {β : Type} (m : ApiMethod) (r : HttpResp β) :
    (checksStatus m = true →
      (respOk r.status = false → handleResponse m r = Except.error (httpErrorMsg r.status)) ∧
      (respOk r.status = true → handleResponse m r = Except.ok r.body)) ∧
    (checksStatus m = false → handleResponse m r = Except.ok r.body) := by
  cases m <;>
    refine ⟨fun hc => ⟨fun h => ?_, fun h => ?_⟩, fun hc => ?_⟩ <;>
    simp_all [handleResponse, checksStatus]

/-- Witness for `C2_api_status_discipline` at concrete responses. -/
theorem C2_api_status_discipline_witness :
    handleResponse ApiMethod.getEvents (⟨404, (0 : Nat)⟩ : HttpResp Nat) =
        Except.error (httpErrorMsg 404) ∧
      handleResponse ApiMethod.login (⟨404, (0 : Nat)⟩ : HttpResp Nat) = Except.ok 0 :=
  ⟨((C2_api_status_discipline ApiMethod.getEvents ⟨404, 0⟩).1 rfl).1 rfl,
   (C2_api_status_discipline ApiMethod.login ⟨404, 0⟩).2 rfl⟩

/-- C6 (counterexample): the claim's conclusion "a network failure or
non-success status causes the call to fail" is false for the
non-status-checking methods: `getChores` issues its one backend request
and, on a status-500 response, does not fail — it returns the parsed
body (part_007 l. 293-300). -/
theorem C6_counterexample :
    runScript (methodScript ApiMethod.getChores false) (fun _ => true) 0 =
      [FetchAction.backend "/api/chores"] ∧
    respOk 500 = false ∧
    handleResponse ApiMethod.getChores (⟨500, 0⟩ : HttpResp Nat) = Except.ok 0 :=
  ⟨rfl, rfl, rfl⟩

/-- C6 (amended): no `ApiService` method ever retries.  For every
method, every audio payload shape and every oracle deciding the success
of each awaited step, the executed trace contains at most one backend
request, and no step at all runs after a failed one (a failed step can
only be the last entry of the executed trace), so a rejected awaited
step — a network failure or a thrown status error — makes the call fail
with no further request.  A non-success status makes the call fail only
for the status-checking methods; the auth and chores methods return the
parsed body instead — in either case no further request is sent. -/
theorem C6_no_retries (m : ApiMethod) (audioIsString : Bool) (oracle : Nat → Bool)
    {β : Type} (r : HttpResp β) :
    countBackend (runScript (methodScript m audioIsString) oracle 0) ≤ 1 ∧
    (∀ k, k + 1 < (runScript (methodScript m audioIsString) oracle 0).length →
      oracle k = true) ∧
    (checksStatus m = true → respOk r.status = false →
      handleResponse m r = Except.error (httpErrorMsg r.status)) ∧
    (checksStatus m = false → handleResponse m r = Except.ok r.body) := by
  refine ⟨le_trans (countBackend_runScript_le _ _ _)
      (countBackend_methodScript_le_one m audioIsString),
    fun k h => by simpa using runScript_oracle_true_of_not_last _ oracle 0 k h,
    fun hc hok => ?_, fun hc => ?_⟩
  · cases m <;> simp_all [handleResponse, checksStatus]
  · cases m <;> simp_all [handleResponse, checksStatus]

/-- Witness for `C6_no_retries`: the string-payload voice command issues
its local blob-conversion fetch and then at most one backend request;
on a 500 response, `getEvents` fails while `getChores` returns the body. -/
theorem C6_no_retries_witness :
    countBackend (runScript (methodScript ApiMethod.processVoiceCommand true)
        (fun _ => true) 0) ≤ 1 ∧
    (fun _ => true : Nat → Bool) 0 = true ∧
    handleResponse ApiMethod.getEvents (⟨500, 0⟩ : HttpResp Nat) =
      Except.error (httpErrorMsg 500) ∧
    handleResponse ApiMethod.getChores (⟨500, 0⟩ : HttpResp Nat) = Except.ok 0 :=
  ⟨(C6_no_retries ApiMethod.processVoiceCommand true (fun _ => true) (⟨500, 0⟩ : HttpResp Nat)).1,
   (C6_no_retries ApiMethod.processVoiceCommand true (fun _ => true)
     (⟨500, 0⟩ : HttpResp Nat)).2.1 0 (by decide),
   (C6_no_retries ApiMethod.getEvents false (fun _ => true)
     (⟨500, 0⟩ : HttpResp Nat)).2.2.1 rfl rfl,
   (C6_no_retries ApiMethod.getChores false (fun _ => true)
     (⟨500, 0⟩ : HttpResp Nat)).2.2.2 rfl⟩

/-- C7: when the events fetch of `TodayView` or `MonthView` rejects and
the component is still mounted, the error state becomes the inline text
"Failed to load events.", the loading flag becomes false, and the
stored events list is unchanged. -/
theorem C7_fetch_error_state (s : EventsViewState) :
    (todayViewApplyFetch true (Except.error ()) s).error = some "Failed to load events." ∧
    (todayViewApplyFetch true (Except.error ()) s).loading = false ∧
    (todayViewApplyFetch true (Except.error ()) s).events = s.events ∧
    (monthViewApplyFetch true (Except.error ()) s).error = some "Failed to load events." ∧
    (monthViewApplyFetch true (Except.error ()) s).loading = false ∧
    (monthViewApplyFetch true (Except.error ()) s).events = s.events := by
  simp [todayViewApplyFetch, monthViewApplyFetch]

theorem weekdayScan_append (today : JsDate) (lower : List Char) (pre post : List Nat)
    (i : Nat)
    (hpre : ∀ j ∈ pre, substrB (nextPat j) lower = false ∧ substrB (thisPat j) lower = false)
    (hnext : substrB (nextPat i) lower = true) :
    weekdayScan today lower (pre ++ i :: post) = some (nextWeekdayDate today i) := by
  induction pre with
  | nil => simp [weekdayScan, hnext]
  | cons j pre ih =>
      have hj := hpre j (List.mem_cons_self j pre)
      simp only [List.cons_append, weekdayScan, hj.1, hj.2, Bool.false_eq_true, if_false]
      exact ih fun x hx => hpre x (List.mem_cons_of_mem j hx)

theorem nextWeekdayDate_spec (today : JsDate) (i : Nat) (hi : i < 7) :
    jsGetDay (nextWeekdayDate today i) = i ∧
    7 ≤ (nextWeekdayDate today i).epochDay - today.epochDay ∧
    (nextWeekdayDate today i).epochDay - today.epochDay ≤ 13 := by
  unfold nextWeekdayDate jsAddDays jsGetDay
  refine ⟨?_, ?_, ?_⟩ <;> simp only [] <;> omega

/-- C3 (counterexample): the input "next sunday and next tuesday"
contains the phrase "next tuesday" and none of today/tomorrow/yesterday,
yet `extractDateFromText` returns the *sunday* date (the loop scans
weekdays Sunday-first), whose day-of-week is 0, not Tuesday's 2 — so the
claim's conclusion fails for the weekday "tuesday" it quantifies over.
(Epoch day 0 is a Thursday; the result is epoch day 10, a Sunday.) -/
theorem C3_counterexample :
    extractDateFromText ⟨0⟩ none "next sunday and next tuesday".toList = some ⟨10⟩ ∧
    jsGetDay ⟨10⟩ = 0 ∧
    substrB (nextPat 2) ("next sunday and next tuesday".toList.map Char.toLower) = true ∧
    substrB "today".toList ("next sunday and next tuesday".toList.map Char.toLower) = false ∧
    substrB "tomorrow".toList ("next sunday and next tuesday".toList.map Char.toLower) = false ∧
    substrB "yesterday".toList
      ("next sunday and next tuesday".toList.map Char.toLower) = false := by
  refine ⟨?_, by decide, by decide, by decide, by decide, by decide⟩
  decide

/-- C3 (amended): for every input containing "next &lt;weekday&gt;" and none
of today/tomorrow/yesterday, *where &lt;weekday&gt; is the first weekday in
Sunday-through-Saturday order whose `next` or backspace-delimited
pattern occurs in the lowered text*, the result is a non-null date whose
day-of-week is that weekday, lying at least 7 and at most 13 days after
the current date. -/
theorem C3_next_weekday (today : JsDate) (fallback : Option JsDate) (text : List Char)
    (i : Nat) (hi : i < 7)
    (hnext : substrB (nextPat i) (text.map Char.toLower) = true)
    (hfirst : ∀ j, j < i → substrB (nextPat j) (text.map Char.toLower) = false ∧
      substrB (thisPat j) (text.map Char.toLower) = false)
    (ht1 : substrB "today".toList (text.map Char.toLower) = false)
    (ht2 : substrB "tomorrow".toList (text.map Char.toLower) = false)
    (ht3 : substrB "yesterday".toList (text.map Char.toLower) = false) :
    extractDateFromText today fallback text = some (nextWeekdayDate today i) ∧
    jsGetDay (nextWeekdayDate today i) = i ∧
    7 ≤ (nextWeekdayDate today i).epochDay - today.epochDay ∧
    (nextWeekdayDate today i).epochDay - today.epochDay ≤ 13 := by
  refine ⟨?_, nextWeekdayDate_spec today i hi⟩
  have hscan : weekdayScan today (text.map Char.toLower) [0, 1, 2, 3, 4, 5, 6] =
      some (nextWeekdayDate today i) := by
    interval_cases i
    · exact weekdayScan_append today _ [] [1, 2, 3, 4, 5, 6] 0 (by simp) hnext
    · refine weekdayScan_append today _ [0] [2, 3, 4, 5, 6] 1 ?_ hnext
      intro j hj
      refine hfirst j ?_
      simp only [List.mem_cons, List.not_mem_nil, or_false] at hj
      omega
    · refine weekdayScan_append today _ [0, 1] [3, 4, 5, 6] 2 ?_ hnext
      intro j hj
      refine hfirst j ?_
      simp only [List.mem_cons, List.not_mem_nil, or_false] at hj
      omega
    · refine weekdayScan_append today _ [0, 1, 2] [4, 5, 6] 3 ?_ hnext
      intro j hj
      refine hfirst j ?_
      simp only [List.mem_cons, List.not_mem_nil, or_false] at hj
      omega
    · refine weekdayScan_append today _ [0, 1, 2, 3] [5, 6] 4 ?_ hnext
      intro j hj
      refine hfirst j ?_
      simp only [List.mem_cons, List.not_mem_nil, or_false] at hj
      omega
    · refine weekdayScan_append today _ [0, 1, 2, 3, 4] [6] 5 ?_ hnext
      intro j hj
      refine hfirst j ?_
      simp only [List.mem_cons, List.not_mem_nil, or_false] at hj
      omega
    · refine weekdayScan_append today _ [0, 1, 2, 3, 4, 5] [] 6 ?_ hnext
      intro j hj
      refine hfirst j ?_
      simp only [List.mem_cons, List.not_mem_nil, or_false] at hj
      omega
  simp only [extractDateFromText, ht1, ht2, ht3, Bool.false_eq_true, if_false, hscan]

/-- Witness for `C3_next_weekday`: "next tuesday" seen on a Thursday
(epoch day 0) yields epoch day 12, a Tuesday 12 days ahead. -/
theorem C3_next_weekday_witness :
    extractDateFromText ⟨0⟩ none "next tuesday".toList = some ⟨12⟩ ∧
    jsGetDay ⟨12⟩ = 2 := by
  have h := C3_next_weekday ⟨0⟩ none "next tuesday".toList 2 (by decide) (by decide)
    (fun j hj => by interval_cases j <;> exact ⟨by decide, by decide⟩)
    (by decide) (by decide) (by decide)
  refine ⟨?_, by decide⟩
  rw [h.1]
  decide

theorem foldl_pushAssoc_eq (parse : String → JsDate) (es : List CalendarEvent)
    (g : List (String × List CalendarEvent)) :
    es.foldl (fun grouped event => pushAssoc grouped (dayNameOf parse event) event) g =
      g.map fun p => (p.1, p.2 ++ es.filter fun e => decide (dayNameOf parse e = p.1)) := by
  induction es generalizing g with
  | nil => simp
  | cons e es ih =>
      rw [List.foldl_cons, ih]
      simp only [pushAssoc, List.map_map]
      apply List.map_congr_left
      intro p _
      by_cases hp : p.1 = dayNameOf parse e
      · simp [Function.comp, hp, List.filter_cons]
      · simp [Function.comp, hp, List.filter_cons, Ne.symm hp]

theorem sum_map_indicator (ks : List String) (k : String) (f : String → Nat)
    (hnd : ks.Nodup) (hk : k ∈ ks) :
    (ks.map fun d => (if k = d then 1 else 0) + f d).sum = 1 + (ks.map f).sum := by
  induction ks with
  | nil => cases hk
  | cons a ks ih =>
      rcases List.mem_cons.mp hk with rfl | hk'
      · have ha : k ∉ ks := (List.nodup_cons.mp hnd).1
        have hmap : (ks.map fun d => (if k = d then 1 else 0) + f d) = ks.map f := by
          apply List.map_congr_left
          intro d hd
          have hne : k ≠ d := fun h => ha (h ▸ hd)
          simp [hne]
        simp only [List.map_cons, List.sum_cons, if_true]
        rw [hmap]
        omega
      · have hne : k ≠ a := by
          rintro rfl
          exact (List.nodup_cons.mp hnd).1 hk'
        have hrec := ih (List.nodup_cons.mp hnd).2 hk'
        simp only [List.map_cons, List.sum_cons, if_neg hne] at *
        omega

theorem sum_filter_weekDays (parse : String → JsDate) (es : List CalendarEvent) :
    (weekDays.map fun d =>
      (es.filter fun x => decide (dayNameOf parse x = d)).length).sum = es.length := by
  induction es with
  | nil => simp
  | cons e es ih =>
      have hlen : ∀ d ∈ weekDays,
          ((e :: es).filter fun x => decide (dayNameOf parse x = d)).length =
            (if dayNameOf parse e = d then 1 else 0) +
              (es.filter fun x => decide (dayNameOf parse x = d)).length := by
        intro d _
        by_cases h : dayNameOf parse e = d
        · simp [List.filter_cons, h]
          omega
        · simp [List.filter_cons, h]
      rw [List.map_congr_left hlen]
      have hmem : dayNameOf parse e ∈ weekDays := by
        have h7 := jsGetDay_lt_7 (parse e.start_time)
        have hall : ∀ j, j < 7 → weekDays.getD j "" ∈ weekDays := by decide
        exact hall _ h7
      rw [sum_map_indicator weekDays (dayNameOf parse e) _ (by decide) hmem, ih]
      simp [Nat.add_comm]

/-- C9: `groupEventsByDay` returns a record with exactly the seven
weekday keys Sunday..Saturday in order; the bucket at index `i` holds
exactly the input events whose parsed `start_time` has day-of-week `i`
(in input order), so every event lands in exactly the bucket named after
its start day, and the bucket sizes sum to the input length. -/
theorem C9_groupEventsByDay (parse : String → JsDate) (events : List CalendarEvent) :
    ((groupEventsByDay parse events).map Prod.fst = weekDays) ∧
    (∀ i, i < 7 →
      (groupEventsByDay parse events).get? i =
        some (weekDays.getD i "",
          events.filter fun e => decide (jsGetDay (parse e.start_time) = i))) ∧
    (((groupEventsByDay parse events).map fun p => p.2.length).sum = events.length) := by
  have hchar : groupEventsByDay parse events =
      weekDays.map fun d => (d, events.filter fun e => decide (dayNameOf parse e = d)) := by
    unfold groupEventsByDay
    rw [foldl_pushAssoc_eq]
    simp [List.map_map, Function.comp]
  refine ⟨?_, fun i hi => ?_, ?_⟩
  · have hfst : (Prod.fst ∘ fun d =>
        (d, events.filter fun e => decide (dayNameOf parse e = d))) = id := by
      funext d
      rfl
    rw [hchar, List.map_map, hfst, List.map_id]
  · rw [hchar, List.get?_map]
    have hw : weekDays.get? i = some (weekDays.getD i "") := by
      have hall : ∀ j, j < 7 → weekDays.get? j = some (weekDays.getD j "") := by decide
      exact hall i hi
    rw [hw]
    have hfc : (events.filter fun e => decide (dayNameOf parse e = weekDays.getD i "")) =
        events.filter fun e => decide (jsGetDay (parse e.start_time) = i) := by
      apply List.filter_congr
      intro e _
      have hde := jsGetDay_lt_7 (parse e.start_time)
      have key : ∀ a, a < 7 → ∀ b, b < 7 →
          ((weekDays.getD a "" = weekDays.getD b "") ↔ a = b) := by decide
      by_cases h : jsGetDay (parse e.start_time) = i
      · simp [dayNameOf, h]
      · have hne : weekDays.getD (jsGetDay (parse e.start_time)) "" ≠ weekDays.getD i "" :=
          fun hc => h ((key _ hde _ hi).mp hc)
        simp [dayNameOf, h]
        simpa using hne
    simp only [Option.map_some']
    rw [hfc]
  · rw [hchar]
    have := sum_filter_weekDays parse events
    simpa [List.map_map, Function.comp] using this

/-- Witness for `C9_groupEventsByDay`: a concrete two-event grouping
(epoch days 0 and 3 are a Thursday and a Sunday). -/
theorem C9_groupEventsByDay_witness :
    (groupEventsByDay (fun s => if s = "a" then ⟨0⟩ else ⟨3⟩)
        [{ id := "1", summary := "work", start_time := "a", end_time := "a" },
         { id := "2", summary := "kid", start_time := "b", end_time := "b" }]).get? 0 =
      some ("Sunday", [{ id := "2", summary := "kid", start_time := "b", end_time := "b" }]) := by
  have h := (C9_groupEventsByDay (fun s => if s = "a" then ⟨0⟩ else ⟨3⟩)
    [{ id := "1", summary := "work", start_time := "a", end_time := "a" },
     { id := "2", summary := "kid", start_time := "b", end_time := "b" }]).2.1 0 (by decide)
  rw [h]
  decide

/-- C10: `generateCalendarDays` returns `7 + firstDayOfMonth +
daysInMonth` cells — seven weekday headers, then `firstDayOfMonth` empty
cells, then one day cell per day number `1..daysInMonth` in order, each
holding exactly the fetched events whose parsed `start_time` has that
day-of-month (the month and year of the event are not inspected). -/
theorem C10_generateCalendarDays (parse : String → JsDate) (fdm dim : Nat)
    (monthEvents : List CalendarEvent) :
    ((generateCalendarDays parse fdm dim monthEvents).length = 7 + fdm + dim) ∧
    (∀ i, i < 7 → (generateCalendarDays parse fdm dim monthEvents).get? i =
      some (CalendarCell.header (dayNames.getD i ""))) ∧
    (∀ i, 7 ≤ i → i < 7 + fdm →
      (generateCalendarDays parse fdm dim monthEvents).get? i = some CalendarCell.empty) ∧
    (∀ k, k < dim →
      (generateCalendarDays parse fdm dim monthEvents).get? (7 + fdm + k) =
        some (CalendarCell.day (k + 1)
          (monthEvents.filter fun e => decide (jsGetDate (parse e.start_time) = k + 1)))) := by
  refine ⟨?_, fun i hi => ?_, fun i hi1 hi2 => ?_, fun k hk => ?_⟩
  · simp [generateCalendarDays, dayNames]
    omega
  · unfold generateCalendarDays
    have h1 : i < ((dayNames.map CalendarCell.header) ++
        List.replicate fdm CalendarCell.empty).length := by
      simp [dayNames]
      omega
    have h2 : i < (dayNames.map CalendarCell.header).length := by
      simp [dayNames]
      omega
    rw [List.get?_append h1, List.get?_append h2, List.get?_map]
    have hdn : ∀ j, j < 7 → dayNames.get? j = some (dayNames.getD j "") := by decide
    rw [hdn i hi]
    rfl
  · unfold generateCalendarDays
    have h1 : i < ((dayNames.map CalendarCell.header) ++
        List.replicate fdm CalendarCell.empty).length := by
      simp [dayNames]
      omega
    have h2 : (dayNames.map CalendarCell.header).length ≤ i := by
      simp [dayNames]
      omega
    rw [List.get?_append h1, List.get?_append_right h2]
    have h3 : i - dayNames.length < fdm := by
      simp [dayNames]
      omega
    simp [List.get?_eq_getElem?, List.getElem?_replicate, h3]
  · unfold generateCalendarDays
    have h1 : ((dayNames.map CalendarCell.header) ++
        List.replicate fdm CalendarCell.empty).length ≤ 7 + fdm + k := by
      simp [dayNames]
      omega
    rw [List.get?_append_right h1]
    have h2 : 7 + fdm + k - ((dayNames.map CalendarCell.header) ++
        List.replicate fdm CalendarCell.empty).length = k := by
      simp [dayNames]
      omega
    rw [h2, List.get?_map, List.get?_range hk]
    rfl

/-- Witness for `C10_generateCalendarDays`: a 3-day month starting with
2 empty cells, containing one event whose `start_time` parses to
1970-02-02 (epoch day 32) — a different month, but day-of-month 2, so it
lands in the day-2 cell. -/
theorem C10_generateCalendarDays_witness :
    (generateCalendarDays (fun _ => ⟨32⟩) 2 3
        [{ id := "1", summary := "s", start_time := "x", end_time := "x" }]).get? 10 =
      some (CalendarCell.day 2
        [{ id := "1", summary := "s", start_time := "x", end_time := "x" }]) ∧
    (generateCalendarDays (fun _ => ⟨32⟩) 2 3
        [{ id := "1", summary := "s", start_time := "x", end_time := "x" }]).length = 12 ∧
    (generateCalendarDays (fun _ => ⟨32⟩) 2 3
        [{ id := "1", summary := "s", start_time := "x", end_time := "x" }]).get? 0 =
      some (CalendarCell.header "Sun") ∧
    (generateCalendarDays (fun _ => ⟨32⟩) 2 3
        [{ id := "1", summary := "s", start_time := "x", end_time := "x" }]).get? 8 =
      some CalendarCell.empty := by
  have h := C10_generateCalendarDays (fun _ => ⟨32⟩) 2 3
    [{ id := "1", summary := "s", start_time := "x", end_time := "x" }]
  refine ⟨?_, ?_, ?_, ?_⟩
  · have h4 := h.2.2.2 1 (by decide)
    have hidx : (7 + 2 + 1 : Nat) = 10 := rfl
    rw [hidx] at h4
    rw [h4]
    decide
  · simpa using h.1
  · have h2 := h.2.1 0 (by decide)
    rw [h2]
    decide
  · exact h.2.2.1 8 (by decide) (by decide)

theorem convStartCore_inv (t : ConvVoiceState) (env : StartEnv) (ht : convRecInv t) :
    convRecInv (convStartCore t env) := by
  unfold convStartCore
  rcases ht with ⟨h1, h2⟩ | ⟨r, h1, h2⟩
  · split_ifs with hp hc
    · exact Or.inl ⟨h1, h2⟩
    · exact Or.inl ⟨h1, h2⟩
    · exact Or.inr ⟨t.nextId, rfl, by simp [h2]⟩
  · split_ifs with hp hc
    · exact Or.inr ⟨r, h1, h2⟩
    · exact Or.inr ⟨r, h1, h2⟩
    · exfalso
      simp [h2] at hc

theorem convStartListening_inv (s : ConvVoiceState) (env : StartEnv) (h : convRecInv s) :
    convRecInv (convStartListening s env) := by
  have hkeep : ∀ (b1 b2 : Bool) (c : Option Nat),
      convRecInv { s with isListening := b1, isProcessing := b2, conversationId := c } := by
    intro b1 b2 c
    rcases h with ⟨h1, h2⟩ | ⟨r, h1, h2⟩
    · exact Or.inl ⟨h1, h2⟩
    · exact Or.inr ⟨r, h1, h2⟩
  unfold convStartListening
  dsimp only
  cases hcv : s.conversationId with
  | none =>
      split_ifs with hc
      · exact hkeep false false s.conversationId
      · exact convStartCore_inv _ env (hkeep true false (some 0))
  | some c => exact convStartCore_inv _ env (hkeep true false s.conversationId)

theorem convStopListening_inv (s : ConvVoiceState) (env : StopEnv) (h : convRecInv s) :
    convRecInv (convStopListening s env).1 := by
  unfold convStopListening
  cases hr : s.recording with
  | none => exact h
  | some r =>
      have hlive : s.live = [r] := by
        rcases h with ⟨h1, h2⟩ | ⟨r', h1, h2⟩
        · rw [hr] at h1
          cases h1
        · rw [hr] at h1
          cases h1
          exact h2
      dsimp only
      split_ifs with hf
      · exact Or.inr ⟨r, rfl, hlive⟩
      · cases hu : env.uri with
        | some u => exact Or.inl ⟨rfl, by simp [hlive]⟩
        | none => exact Or.inl ⟨rfl, by simp [hlive]⟩

theorem convReachable_inv (s : ConvVoiceState) (h : ConvReachable s) : convRecInv s := by
  induction h with
  | init => exact Or.inl ⟨rfl, rfl⟩
  | start s env _ ih => exact convStartListening_inv s env ih
  | stop s env _ ih => exact convStopListening_inv s env ih
  | reset s _ ih =>
      rcases ih with ⟨h1, h2⟩ | ⟨r, h1, h2⟩
      · exact Or.inl ⟨h1, h2⟩
      · exact Or.inr ⟨r, h1, h2⟩

theorem choresStartListening_inv (s : ChoresVoiceState) (env : StartEnv)
    (h : choresRecInv s) : choresRecInv (choresStartListening s env) := by
  unfold choresStartListening
  dsimp only
  rcases h with ⟨h1, h2⟩ | ⟨r, h1, h2⟩
  · split_ifs with hp hc
    · exact Or.inl ⟨h1, h2⟩
    · exact Or.inl ⟨h1, h2⟩
    · exact Or.inr ⟨s.nextId, rfl, by simp [h2]⟩
  · split_ifs with hp hc
    · exact Or.inr ⟨r, h1, h2⟩
    · exact Or.inr ⟨r, h1, h2⟩
    · exfalso
      simp [h2] at hc

theorem choresStopListening_inv (s : ChoresVoiceState) (token : Option String)
    (env : StopEnv) (h : choresRecInv s) : choresRecInv (choresStopListening s token env).1 := by
  unfold choresStopListening
  cases hr : s.recording with
  | none => exact h
  | some r =>
      have hlive : s.live = [r] := by
        rcases h with ⟨h1, h2⟩ | ⟨r', h1, h2⟩
        · rw [hr] at h1
          cases h1
        · rw [hr] at h1
          cases h1
          exact h2
      dsimp only
      split_ifs with hf
      · exact Or.inr ⟨r, rfl, hlive⟩
      · cases hu : env.uri with
        | some u =>
            cases token with
            | some t => exact Or.inl ⟨rfl, by simp [hlive]⟩
            | none => exact Or.inl ⟨rfl, by simp [hlive]⟩
        | none =>
            cases token with
            | some t => exact Or.inl ⟨rfl, by simp [hlive]⟩
            | none => exact Or.inl ⟨rfl, by simp [hlive]⟩

theorem choresReachable_inv (s : ChoresVoiceState) (h : ChoresReachable s) :
    choresRecInv s := by
  induction h with
  | init => exact Or.inl ⟨rfl, rfl⟩
  | start s env _ ih => exact choresStartListening_inv s env ih
  | stop s token env _ ih => exact choresStopListening_inv s token env ih

/-- C4: in every reachable state of each voice-capture hook at most one
recording object is live (held), and whenever a `stopListening` run
processes captured audio it has first stopped and unloaded the held
recording and cleared the stored reference to null — the event order is
exactly stop-and-unload, clear-ref, process. -/
theorem C4_recording_exclusive :
    (∀ s, ConvReachable s → s.live.length ≤ 1) ∧
    (∀ s, ChoresReachable s → s.live.length ≤ 1) ∧
    (∀ s env, RecEvent.processAudio ∈ (convStopListening s env).2 →
      ∃ r, s.recording = some r ∧
        (convStopListening s env).2 =
          [RecEvent.stopUnload r, RecEvent.clearRef, RecEvent.processAudio] ∧
        (convStopListening s env).1.recording = none) ∧
    (∀ s token env, RecEvent.processAudio ∈ (choresStopListening s token env).2 →
      ∃ r, s.recording = some r ∧
        (choresStopListening s token env).2 =
          [RecEvent.stopUnload r, RecEvent.clearRef, RecEvent.processAudio] ∧
        (choresStopListening s token env).1.recording = none) := by
  refine ⟨fun s hs => ?_, fun s hs => ?_, fun s env hmem => ?_, fun s token env hmem => ?_⟩
  · rcases convReachable_inv s hs with ⟨_, h2⟩ | ⟨r, _, h2⟩ <;> simp [h2]
  · rcases choresReachable_inv s hs with ⟨_, h2⟩ | ⟨r, _, h2⟩ <;> simp [h2]
  · unfold convStopListening at hmem ⊢
    cases hr : s.recording with
    | none =>
        rw [hr] at hmem
        simp at hmem
    | some r =>
        rw [hr] at hmem
        dsimp only at hmem ⊢
        split_ifs at hmem ⊢ with hf
        · simp at hmem
        · cases hu : env.uri with
          | none =>
              rw [hu] at hmem
              simp at hmem
          | some u =>
              rw [hu] at hmem
              exact ⟨r, rfl, rfl, rfl⟩
  · unfold choresStopListening at hmem ⊢
    cases hr : s.recording with
    | none =>
        rw [hr] at hmem
        simp at hmem
    | some r =>
        rw [hr] at hmem
        dsimp only at hmem ⊢
        split_ifs at hmem ⊢ with hf
        · simp at hmem
        · cases hu : env.uri with
          | none =>
              rw [hu] at hmem
              cases token <;> simp at hmem
          | some u =>
              rw [hu] at hmem
              cases token with
              | none => simp at hmem
              | some t => exact ⟨r, rfl, rfl, rfl⟩

/-- Witness for `C4_recording_exclusive`: the initial states, plus a
concrete stop from a state holding recording 5 with a URI available. -/
theorem C4_recording_exclusive_witness :
    (⟨false, false, none, none, [], 0⟩ : ConvVoiceState).live.length ≤ 1 ∧
    (⟨false, false, none, [], 0⟩ : ChoresVoiceState).live.length ≤ 1 ∧
    (∃ r, (⟨true, false, some 0, some 5, [5], 6⟩ : ConvVoiceState).recording = some r ∧
      (convStopListening ⟨true, false, some 0, some 5, [5], 6⟩ ⟨false, some 1⟩).2 =
        [RecEvent.stopUnload r, RecEvent.clearRef, RecEvent.processAudio] ∧
      (convStopListening ⟨true, false, some 0, some 5, [5], 6⟩ ⟨false, some 1⟩).1.recording =
        none) ∧
    (∃ r, (⟨true, false, some 5, [5], 6⟩ : ChoresVoiceState).recording = some r ∧
      (choresStopListening ⟨true, false, some 5, [5], 6⟩ (some "tok") ⟨false, some 1⟩).2 =
        [RecEvent.stopUnload r, RecEvent.clearRef, RecEvent.processAudio] ∧
      (choresStopListening ⟨true, false, some 5, [5], 6⟩ (some "tok")
        ⟨false, some 1⟩).1.recording = none) :=
  ⟨C4_recording_exclusive.1 _ ConvReachable.init,
   C4_recording_exclusive.2.1 _ ChoresReachable.init,
   C4_recording_exclusive.2.2.1 ⟨true, false, some 0, some 5, [5], 6⟩ ⟨false, some 1⟩
     (by decide),
   C4_recording_exclusive.2.2.2 ⟨true, false, some 5, [5], 6⟩ (some "tok") ⟨false, some 1⟩
     (by decide)⟩

/-- C1: for every conversation response handled by `processVoiceMessage`,
`queried_view = 'week'` lands on the Week page; `queried_view = 'month'`
lands on the Month page and, when `queried_date` has at least two
entries, stores the month range parsed from its first two entries;
otherwise a non-empty `queried_date` sets the selected date to its
parsed first entry and lands on the Today page. -/
theorem C1_voice_nav {δ : Type} (parse : String → δ) (result : ConversationResponse)
    (s : NavState δ) :
    (result.queried_view = some "week" →
      pages.get? (processVoiceNav parse result s).currentPage = some "Week") ∧
    (result.queried_view = some "month" →
      pages.get? (processVoiceNav parse result s).currentPage = some "Month" ∧
      ∀ d0 d1 rest, result.queried_date = some (d0 :: d1 :: rest) →
        (processVoiceNav parse result s).monthRange = some (parse d0, parse d1)) ∧
    (result.queried_view ≠ some "week" → result.queried_view ≠ some "month" →
      ∀ d0 rest, result.queried_date = some (d0 :: rest) →
        (processVoiceNav parse result s).selectedDate = parse d0 ∧
        pages.get? (processVoiceNav parse result s).currentPage = some "Today") := by
  have hmw : (some "month" : Option String) ≠ some "week" := by decide
  refine ⟨fun hw => ?_, fun hm => ⟨?_, fun d0 d1 rest hd => ?_⟩, fun hw hm d0 rest hd => ?_⟩
  · simp [processVoiceNav, hw, pages]
  · rcases hqd : result.queried_date with _ | (_ | ⟨d0, _ | ⟨d1, rest⟩⟩) <;>
      simp [processVoiceNav, hm, hqd, pages]
  · simp [processVoiceNav, hm, hd, pages]
  · simp only [processVoiceNav, hd]
    rw [if_neg hw, if_neg hm]
    simp [pages]

/-- Witness for `C1_voice_nav` at concrete responses: a month query with
two dates, and a date-only query. -/
theorem C1_voice_nav_witness :
    (pages.get? (processVoiceNav id
        { success := true, conversation_id := "c", message := "m",
          queried_date := some ["2024-03-01", "2024-03-31"], queried_view := some "month" }
        ⟨9, "today", none⟩).currentPage = some "Month" ∧
      (processVoiceNav id
        { success := true, conversation_id := "c", message := "m",
          queried_date := some ["2024-03-01", "2024-03-31"], queried_view := some "month" }
        ⟨9, "today", none⟩).monthRange = some ("2024-03-01", "2024-03-31")) ∧
    (processVoiceNav id
        { success := true, conversation_id := "c", message := "m",
          queried_date := some ["2024-03-05"] }
        ⟨9, "today", none⟩).selectedDate = "2024-03-05" := by
  refine ⟨⟨?_, ?_⟩, ?_⟩
  · exact ((C1_voice_nav id _ _).2.1 rfl).1
  · exact ((C1_voice_nav id _ _).2.1 rfl).2 "2024-03-01" "2024-03-31" [] rfl
  · exact ((C1_voice_nav id _ _).2.2 (by simp) (by simp) "2024-03-05" [] rfl).1

/-- C5 (counterexample): the claim covers the legacy `VoiceCommandView`
flow (part_002 l. 105-119), where speech happens only under
`result.success && result.message`; a successfully processed message
whose response carries `success: true` but an empty `message` produces
no spoken response at all, not exactly one. -/
theorem C5_counterexample :
    voiceCommandSpeech { success := true, message := "", confidence := 0 } = none := rfl

/-- C5 (amended): in the conversational flow exactly one response is
spoken — the audio at `audio_url` when that field is present and
non-empty (taking precedence over synthesis), and otherwise the
synthesized `message`; in the legacy `VoiceCommandView` flow the
`message` is synthesized only when the response has `success` set and a
non-empty `message`, and nothing else is ever spoken there. -/
theorem C5_speech_dispatch (result : ConversationResponse) (a : AgentResponse) :
    (∀ u, result.audio_url = some u → u ≠ "" → convSpeechAction result = SpeechAct.play u) ∧
    (result.audio_url = none ∨ result.audio_url = some "" →
      convSpeechAction result = SpeechAct.speak result.message) ∧
    (voiceCommandSpeech a = some a.message ↔ a.success = true ∧ a.message ≠ "") ∧
    (voiceCommandSpeech a = none ∨ voiceCommandSpeech a = some a.message) := by
  refine ⟨fun u hu hne => ?_, fun h => ?_, ?_, ?_⟩
  · simp [convSpeechAction, hu, hne]
  · rcases h with h | h <;> simp [convSpeechAction, h]
  · constructor
    · intro h
      cases hs : a.success with
      | false => simp [voiceCommandSpeech, hs] at h
      | true =>
          by_cases hm : a.message = ""
          · simp [voiceCommandSpeech, hs, hm] at h
          · exact ⟨rfl, hm⟩
    · rintro ⟨hs, hm⟩
      simp [voiceCommandSpeech, hs, hm]
  · cases hs : a.success with
    | false => left; simp [voiceCommandSpeech, hs]
    | true =>
        by_cases hm : a.message = ""
        · left; simp [voiceCommandSpeech, hm]
        · right; simp [voiceCommandSpeech, hs, hm]

/-- Witness for `C5_speech_dispatch` at concrete responses. -/
theorem C5_speech_dispatch_witness :
    convSpeechAction
        { success := true, conversation_id := "c", message := "hi",
          audio_url := some "https://x/a.mp3" } =
      SpeechAct.play "https://x/a.mp3" ∧
    convSpeechAction { success := true, conversation_id := "c", message := "hi" } =
      SpeechAct.speak "hi" ∧
    voiceCommandSpeech { success := true, message := "done" } = some "done" := by
  refine ⟨?_, ?_, ?_⟩
  · exact (C5_speech_dispatch
      { success := true, conversation_id := "c", message := "hi",
        audio_url := some "https://x/a.mp3" }
      { success := true, message := "" }).1 "https://x/a.mp3" rfl (by decide)
  · exact (C5_speech_dispatch
      { success := true, conversation_id := "c", message := "hi" }
      { success := true, message := "" }).2.1 (Or.inl rfl)
  · exact (C5_speech_dispatch
      { success := true, conversation_id := "c", message := "hi" }
      { success := true, message := "done" }).2.2.1.mpr ⟨rfl, by decide⟩

/-- C8 (counterexample): a login response with `success: true` and a
token field holding the empty string does contain a token, yet
`res.success && res.token` is falsy, so `login` returns false and stores
nothing. -/
theorem C8_counterexample :
    loginStep (Except.ok { success := true, token := some "" }) "user@example.com"
        ⟨none, none, none, none⟩ =
      (false, ⟨none, none, none, none⟩) := rfl

/-- C8 (amended): `login` returns true iff the settled response is a
success body with a non-empty token; in that case the token and email
are stored in both the context state and local storage, and whenever it
returns false (failed response, missing/empty token, or thrown error)
the state and storage are unchanged. -/
theorem C8_login (res : Except Unit LoginResponse) (email : String) (s : AuthState) :
    ((loginStep res email s).1 = true ↔
      ∃ r t, res = Except.ok r ∧ r.success = true ∧ r.token = some t ∧ t ≠ "") ∧
    (∀ r t, res = Except.ok r → r.success = true → r.token = some t → t ≠ "" →
      (loginStep res email s).2 =
        { token := some t, user := some email,
          storageToken := some t, storageUser := some email }) ∧
    ((loginStep res email s).1 = false → (loginStep res email s).2 = s) := by
  refine ⟨⟨fun h => ?_, ?_⟩, fun r t hr hs ht hne => ?_, ?_⟩
  · cases res with
    | error e => simp [loginStep] at h
    | ok r =>
        cases htok : r.token with
        | none => simp [loginStep, htok] at h
        | some t =>
            simp only [loginStep, htok] at h
            by_cases hcond : (r.success && !(t == "")) = true
            · rw [Bool.and_eq_true] at hcond
              refine ⟨r, t, rfl, hcond.1, htok, fun he => ?_⟩
              have h2 := hcond.2
              subst he
              simp at h2
            · rw [if_neg hcond] at h
              simp at h
  · rintro ⟨r, t, rfl, hs, ht, hne⟩
    simp [loginStep, ht, hs, hne]
  · subst hr
    simp [loginStep, ht, hs, hne]
  · cases res with
    | error e => simp [loginStep]
    | ok r =>
        cases htok : r.token with
        | none => simp [loginStep, htok]
        | some t =>
            simp only [loginStep, htok]
            by_cases hcond : (r.success && !(t == "")) = true
            · rw [if_pos hcond]
              intro h
              simp at h
            · rw [if_neg hcond]
              intro _
              rfl

/-- Witness for `C8_login` at a concrete successful response. -/
theorem C8_login_witness :
    (loginStep (Except.ok { success := true, token := some "tok123" }) "user@example.com"
        ⟨none, none, none, none⟩).2 =
      { token := some "tok123", user := some "user@example.com",
        storageToken := some "tok123", storageUser := some "user@example.com" } ∧
    (loginStep (Except.error ()) "user@example.com" ⟨none, none, none, none⟩).2 =
      ⟨none, none, none, none⟩ :=
  ⟨(C8_login (Except.ok { success := true, token := some "tok123" }) "user@example.com"
      ⟨none, none, none, none⟩).2.1 _ "tok123" rfl rfl rfl (by decide),
   (C8_login (Except.error ()) "user@example.com" ⟨none, none, none, none⟩).2.2 rfl⟩

end FamilyCalendar
